import Mathlib

/-!
Verification of the maximally-activating-seqlet extraction and
position-frequency-matrix (PFM) construction pipeline used for convolutional
filter interpretation in this repository's notebooks.  The notebooks call
`get_activators_n_seqlets` and `get_pfms` from an external interpretability
package; the repository itself only contains the callers, so the pipeline
components (ActivationScanner, SeqletExtractor, PFMBuilder) are modelled here
from the specification.  Rational numbers stand for the finite real activation
values; arrays are explicit shape-plus-flat-data records, matching the
row-major numpy layout used by the callers.
-/

/-- Error taxonomy of the pipeline (spec section 7).  All three errors are
terminal for the current call: the pipeline returns `Except`, so an error
carries no output at all. -/
inductive PipelineError where
  | InvalidShapeError
  | InvalidArgumentError
  | WindowOutOfBoundsError
deriving DecidableEq

/-- An n-dimensional numeric array: an explicit shape together with flat
row-major data, as in numpy.  Rationals model the finite real entries. -/
structure NDArray where
  shape : List ℕ
  data : List ℚ
deriving DecidableEq

/-- One scanner candidate: a (sequence index, position index) pair together
with the activation value found there. -/
structure Candidate where
  seq : ℕ
  pos : ℕ
  val : ℚ
deriving DecidableEq

instance : Inhabited Candidate := ⟨⟨0, 0, 0⟩⟩

/-- Modelled from the spec: the ranking order used by the ActivationScanner —
higher activation value first, ties broken by lower sequence index, then by
lower position index, for determinism. -/
def candLE (a b : Candidate) : Prop :=
  b.val < a.val ∨
    (a.val = b.val ∧ (a.seq < b.seq ∨ (a.seq = b.seq ∧ a.pos ≤ b.pos)))

instance : DecidableRel candLE := fun a b => by
  unfold candLE; infer_instance

instance : IsTotal Candidate candLE where
  total a b := by
    unfold candLE
    rcases lt_trichotomy a.val b.val with h | h | h
    · exact Or.inr (Or.inl h)
    · rcases Nat.lt_trichotomy a.seq b.seq with hs | hs | hs
      · exact Or.inl (Or.inr ⟨h, Or.inl hs⟩)
      · rcases Nat.le_total a.pos b.pos with hp | hp
        · exact Or.inl (Or.inr ⟨h, Or.inr ⟨hs, hp⟩⟩)
        · exact Or.inr (Or.inr ⟨h.symm, Or.inr ⟨hs.symm, hp⟩⟩)
      · exact Or.inr (Or.inr ⟨h.symm, Or.inl hs⟩)
    · exact Or.inl (Or.inl h)

instance : IsTrans Candidate candLE where
  trans a b c hab hbc := by
    rcases hab with h1 | ⟨e1, h1⟩ <;> rcases hbc with h2 | ⟨e2, h2⟩
    · exact Or.inl (h2.trans h1)
    · exact Or.inl (e2 ▸ h1)
    · exact Or.inl (e1.symm ▸ h2)
    · exact Or.inr ⟨e1.trans e2, by omega⟩

/-- Modelled from the spec: flatten the (S, P) activation slice of one filter
into S·P candidate (sequence, position) pairs; flat index i corresponds to
sequence i / P and position i % P, with `val` giving the activation value. -/
def candidatesOf (S P : ℕ) (val : ℕ → ℕ → ℚ) : List Candidate :=
  (List.range (S * P)).map (fun i => ⟨i / P, i % P, val (i / P) (i % P)⟩)

/-- Modelled from the spec: for one filter, rank all candidates by activation
value descending (ties by lower sequence index, then lower position index)
and keep the top n. -/
def selectTopForFilter (S P : ℕ) (val : ℕ → ℕ → ℚ) (n : ℕ) : List Candidate :=
  (List.insertionSort candLE (candidatesOf S P val)).take n

/-- Row-major entry lookup of a (S, F, P)-shaped activation array at
(sequence s, filter f, position p). -/
def NDArray.at3 (arr : NDArray) (F P s f p : ℕ) : ℚ :=
  arr.data.getD ((s * F + f) * P + p) 0

/-- Modelled from the spec: `select_top_positions` (ActivationScanner).
Fails with `InvalidShapeError` if `activations` is not 3-dimensional, with
`InvalidArgumentError` if `num_seqlets ≤ 0`; otherwise returns, for each
filter, the ranked top `num_seqlets` candidates. -/
def select_top_positions (arr : NDArray) (num_seqlets : ℤ) :
    Except PipelineError (List (List Candidate)) :=
  if arr.shape.length ≠ 3 then .error .InvalidShapeError
  else if num_seqlets ≤ 0 then .error .InvalidArgumentError
  else .ok ((List.range (arr.shape.getD 1 0)).map (fun f =>
    selectTopForFilter (arr.shape.getD 0 0) (arr.shape.getD 2 0)
      (fun s p => arr.at3 (arr.shape.getD 1 0) (arr.shape.getD 2 0) s f p)
      num_seqlets.toNat))

/-- Modelled from the spec: the (A, kernel_size) window sliced from sequence
s of the one-hot batch starting at coordinate `start`; entry (a, j) is
`sequences[s, a, start + j]`. -/
def sliceWindow (seqs : ℕ → ℕ → ℕ → ℚ) (A kernel_size s start : ℕ) :
    List (List ℚ) :=
  (List.range A).map (fun a =>
    (List.range kernel_size).map (fun j => seqs s a (start + j)))

/-- Modelled from the spec: `extract_seqlets` (SeqletExtractor).  For each
selected (sequence, position) pair the window
[pos + padding, pos + padding + kernel_size) must lie within [0, L); if any
window does not, the whole call fails with `WindowOutOfBoundsError` and no
output (not even a clipped one) is produced.  Otherwise each pair is sliced
in selection order. -/
def extract_seqlets (selections : List (List Candidate))
    (seqs : ℕ → ℕ → ℕ → ℚ) (A L kernel_size padding : ℕ) :
    Except PipelineError (List (List (List (List ℚ)))) :=
  if selections.all (fun fsel =>
      fsel.all (fun c => c.pos + padding + kernel_size ≤ L))
  then .ok (selections.map (fun fsel => fsel.map (fun c =>
    sliceWindow seqs A kernel_size c.seq (c.pos + padding))))
  else .error .WindowOutOfBoundsError

/-- Modelled from the spec: one filter's PFM, with the recommended
position-major (kernel_size, A) axis convention: entry (j, a) counts symbol a
at window position j, summed across the filter's seqlets.  An empty seqlet
list yields the all-zero matrix. -/
def build_pfm (seqlets : List (List (List ℚ))) (A kernel_size : ℕ) :
    List (List ℚ) :=
  (List.range kernel_size).map (fun j =>
    (List.range A).map (fun a =>
      (seqlets.map (fun w => (w.getD a []).getD j 0)).sum))

/-- Modelled from the spec: `build_pfms` (PFMBuilder) — one PFM per filter. -/
def build_pfms (filter_seqlets : List (List (List (List ℚ))))
    (A kernel_size : ℕ) : List (List (List ℚ)) :=
  filter_seqlets.map (fun seqlets => build_pfm seqlets A kernel_size)

/-- The all-zero (kernel_size, A) count matrix. -/
def zeroPFM (A kernel_size : ℕ) : List (List ℚ) :=
  (List.range kernel_size).map (fun _ => (List.range A).map (fun _ => 0))

/-- Modelled from the spec: the fixed Scanner → Extractor → Builder
sequencing; each stage is a pure function of its inputs. -/
def run_pipeline (arr : NDArray) (num_seqlets : ℤ) (seqs : ℕ → ℕ → ℕ → ℚ)
    (A L kernel_size padding : ℕ) :
    Except PipelineError (List (List (List ℚ))) :=
  match select_top_positions arr num_seqlets with
  | .error e => .error e
  | .ok sels =>
    match extract_seqlets sels seqs A L kernel_size padding with
    | .error e => .error e
    | .ok filterSeqlets => .ok (build_pfms filterSeqlets A kernel_size)

/-- The rectified linear unit, as applied by the notebook to the convolution
layer's output before scanning (`F.relu`). -/
def relu (x : ℚ) : ℚ := max x 0

/-- A one-hot (A, kernel_size) window: a {0,1}-valued matrix in which every
position column sums to exactly 1 across the alphabet. -/
def oneHotWindow (A kernel_size : ℕ) (w : List (List ℚ)) : Prop :=
  w.length = A ∧ (∀ row ∈ w, row.length = kernel_size) ∧
    (∀ a : ℕ, a < A → ∀ j : ℕ, j < kernel_size →
      ((w.getD a []).getD j 0 = 0 ∨ (w.getD a []).getD j 0 = 1)) ∧
    ∀ j : ℕ, j < kernel_size →
      ((List.range A).map (fun a => (w.getD a []).getD j 0)).sum = 1

instance (A kernel_size : ℕ) (w : List (List ℚ)) :
    Decidable (oneHotWindow A kernel_size w) := by
  unfold oneHotWindow; infer_instance

instance exceptDecEq {ε α : Type} [DecidableEq ε] [DecidableEq α] :
    DecidableEq (Except ε α) := fun a b =>
  match a, b with
  | .error e, .error f =>
    if h : e = f then isTrue (by rw [h])
    else isFalse (fun hh => h (Except.error.inj hh))
  | .ok x, .ok y =>
    if h : x = y then isTrue (by rw [h])
    else isFalse (fun hh => h (Except.ok.inj hh))
  | .error _, .ok _ => isFalse (fun hh => Except.noConfusion hh)
  | .ok _, .error _ => isFalse (fun hh => Except.noConfusion hh)

/-- The example activation tensor of the spec's example scenario: shape
(2 sequences, 1 filter, 3 positions), values
[[[0.1, 0.9, 0.2]], [[0.5, 0.05, 0.8]]], row-major. -/
def exActs : NDArray :=
  ⟨[2, 1, 3], [1/10, 9/10, 2/10, 5/10, 5/100, 8/10]⟩

/-- Base identity (alphabet index 0..3 for A,C,G,T) of the two example
one-hot sequences of length 5: sequence 0 reads A C G T A, sequence 1 reads
G A T C A. -/
def exBase : ℕ → ℕ → ℕ := fun s p =>
  if s = 0 then [0, 1, 2, 3, 0].getD p 0 else [2, 0, 3, 1, 0].getD p 0

/-- The example one-hot sequence batch: entry (s, a, p) is 1 exactly when
the base of sequence s at position p is alphabet symbol a. -/
def exSeqs : ℕ → ℕ → ℕ → ℚ := fun s a p => if exBase s p = a then 1 else 0

/-! ### Scanner lemmas -/

lemma candLE_val {a b : Candidate} (h : candLE a b) : b.val ≤ a.val := by
  rcases h with h | ⟨e, _⟩
  · exact le_of_lt h
  · exact le_of_eq e.symm

lemma candidatesOf_length (S P : ℕ) (v : ℕ → ℕ → ℚ) :
    (candidatesOf S P v).length = S * P := by
  simp [candidatesOf]

lemma mem_candidatesOf {S P : ℕ} {v : ℕ → ℕ → ℚ} {c : Candidate}
    (h : c ∈ candidatesOf S P v) :
    c.seq < S ∧ c.pos < P ∧ c.val = v c.seq c.pos := by
  rcases List.mem_map.mp h with ⟨i, hi, rfl⟩
  rw [List.mem_range] at hi
  have hP : 0 < P := by
    rcases Nat.eq_zero_or_pos P with h0 | h0
    · rw [h0, Nat.mul_zero] at hi
      exact absurd hi (Nat.not_lt_zero i)
    · exact h0
  exact ⟨(Nat.div_lt_iff_lt_mul hP).mpr hi, Nat.mod_lt _ hP, rfl⟩

lemma candidatesOf_pairwise_ne (S P : ℕ) (v : ℕ → ℕ → ℚ) :
    List.Pairwise (fun a b : Candidate => (a.seq, a.pos) ≠ (b.seq, b.pos))
      (candidatesOf S P v) := by
  apply List.Pairwise.map
  · intro i j hij heq
    have e1 : i / P = j / P := congrArg Prod.fst heq
    have e2 : i % P = j % P := congrArg Prod.snd heq
    have h1 := Nat.div_add_mod i P
    have h2 := Nat.div_add_mod j P
    rw [e1, e2] at h1
    have hij' : i = j := by rw [← h1]; exact h2
    exact absurd hij' (Nat.ne_of_lt hij)
  · exact List.pairwise_lt_range (S * P)

lemma selectTop_length (S P : ℕ) (v : ℕ → ℕ → ℚ) (n : ℕ) :
    (selectTopForFilter S P v n).length = min n (S * P) := by
  simp [selectTopForFilter, candidatesOf_length]

lemma selectTop_sorted (S P : ℕ) (v : ℕ → ℕ → ℚ) (n : ℕ) :
    List.Pairwise candLE (selectTopForFilter S P v n) :=
  List.Pairwise.sublist (List.take_sublist n _)
    (List.sorted_insertionSort candLE _)

lemma mem_selectTop {S P : ℕ} {v : ℕ → ℕ → ℚ} {n : ℕ} {c : Candidate}
    (h : c ∈ selectTopForFilter S P v n) : c ∈ candidatesOf S P v :=
  (List.perm_insertionSort candLE _).mem_iff.mp
    ((List.take_sublist n _).subset h)

lemma selectTop_pairwise_ne (S P : ℕ) (v : ℕ → ℕ → ℚ) (n : ℕ) :
    List.Pairwise (fun a b : Candidate => (a.seq, a.pos) ≠ (b.seq, b.pos))
      (selectTopForFilter S P v n) := by
  have hsym : ∀ {x y : Candidate},
      (x.seq, x.pos) ≠ (y.seq, y.pos) → (y.seq, y.pos) ≠ (x.seq, x.pos) :=
    fun h => h.symm
  exact List.Pairwise.sublist (List.take_sublist n _)
    ((List.Perm.pairwise_iff hsym
        (List.perm_insertionSort candLE (candidatesOf S P v))).mpr
      (candidatesOf_pairwise_ne S P v))

lemma selectTop_dominates (S P : ℕ) (v : ℕ → ℕ → ℚ) (n : ℕ) :
    ∀ c ∈ candidatesOf S P v, c ∉ selectTopForFilter S P v n →
      ∀ r ∈ selectTopForFilter S P v n, c.val ≤ r.val := by
  intro c hc hnot r hr
  have hnot' : c ∉ List.take n (List.insertionSort candLE (candidatesOf S P v)) :=
    hnot
  have hr' : r ∈ List.take n (List.insertionSort candLE (candidatesOf S P v)) :=
    hr
  have hcs : c ∈ List.insertionSort candLE (candidatesOf S P v) :=
    (List.perm_insertionSort candLE _).mem_iff.mpr hc
  have hpw := List.sorted_insertionSort candLE (candidatesOf S P v)
  rw [← List.take_append_drop n (List.insertionSort candLE (candidatesOf S P v))]
    at hcs hpw
  have hcd : c ∈ List.drop n (List.insertionSort candLE (candidatesOf S P v)) := by
    rcases List.mem_append.mp hcs with h | h
    · exact absurd h hnot'
    · exact h
  exact candLE_val ((List.pairwise_append.mp hpw).2.2 r hr' c hcd)

lemma getD_map_range {β : Type} (g : ℕ → β) (d : β) {F f : ℕ} (hf : f < F) :
    ((List.range F).map g).getD f d = g f := by
  have hlen : f < ((List.range F).map g).length := by simp [hf]
  rw [List.getD_eq_getElem _ _ hlen, List.getElem_map, List.getElem_range]

lemma select_top_positions_eq_ok (arr : NDArray) (S F P : ℕ) (n : ℤ)
    (hshape : arr.shape = [S, F, P]) (hn : 0 < n) :
    select_top_positions arr n =
      .ok ((List.range F).map (fun f =>
        selectTopForFilter S P (fun s p => arr.at3 F P s f p) n.toNat)) := by
  unfold select_top_positions
  rw [hshape]
  simp [show ¬((n : ℤ) ≤ 0) from not_le.mpr hn]

/-! ### Extractor lemmas -/

lemma extract_seqlets_eq_ok (selections : List (List Candidate))
    (seqs : ℕ → ℕ → ℕ → ℚ) (A L kernel_size padding : ℕ)
    (h : ∀ fsel ∈ selections, ∀ c ∈ fsel, c.pos + padding + kernel_size ≤ L) :
    extract_seqlets selections seqs A L kernel_size padding =
      .ok (selections.map (fun fsel => fsel.map (fun c =>
        sliceWindow seqs A kernel_size c.seq (c.pos + padding)))) := by
  have hb : (selections.all (fun fsel =>
      fsel.all (fun c => c.pos + padding + kernel_size ≤ L))) = true := by
    simp only [List.all_eq_true, decide_eq_true_eq]
    exact h
  unfold extract_seqlets
  rw [hb]
  rfl

lemma extract_seqlets_eq_error (selections : List (List Candidate))
    (seqs : ℕ → ℕ → ℕ → ℚ) (A L kernel_size padding : ℕ)
    (h : ¬ ∀ fsel ∈ selections, ∀ c ∈ fsel,
      c.pos + padding + kernel_size ≤ L) :
    extract_seqlets selections seqs A L kernel_size padding =
      .error .WindowOutOfBoundsError := by
  have hb : (selections.all (fun fsel =>
      fsel.all (fun c => c.pos + padding + kernel_size ≤ L))) = false := by
    rw [← Bool.not_eq_true]
    intro hb
    apply h
    simpa only [List.all_eq_true, decide_eq_true_eq] using hb
  unfold extract_seqlets
  rw [hb]
  rfl

lemma sliceWindow_length (seqs : ℕ → ℕ → ℕ → ℚ) (A k s start : ℕ) :
    (sliceWindow seqs A k s start).length = A := by
  simp [sliceWindow]

lemma sliceWindow_row_length (seqs : ℕ → ℕ → ℕ → ℚ) (A k s start : ℕ) :
    ∀ row ∈ sliceWindow seqs A k s start, row.length = k := by
  intro row hrow
  rcases List.mem_map.mp hrow with ⟨a, _, rfl⟩
  simp

lemma sliceWindow_entry (seqs : ℕ → ℕ → ℕ → ℚ) (A k s start : ℕ) {a j : ℕ}
    (ha : a < A) (hj : j < k) :
    ((sliceWindow seqs A k s start).getD a []).getD j 0 =
      seqs s a (start + j) := by
  unfold sliceWindow
  rw [getD_map_range _ _ ha, getD_map_range _ _ hj]

/-! ### Builder lemmas -/

lemma sum_map_swap {α β : Type} (xs : List α) (ys : List β) (f : α → β → ℚ) :
    (xs.map (fun x => (ys.map (fun y => f x y)).sum)).sum =
      (ys.map (fun y => (xs.map (fun x => f x y)).sum)).sum := by
  induction xs with
  | nil => simp
  | cons x xs ih =>
    simp only [List.map_cons, List.sum_cons, ih, ← List.sum_map_add]

lemma getD_map {α β : Type} (g : α → β) (l : List α) (dα : α) (dβ : β)
    {i : ℕ} (hi : i < l.length) :
    (l.map g).getD i dβ = g (l.getD i dα) := by
  rw [List.getD_eq_getElem _ _ (by simpa using hi), List.getElem_map,
    List.getD_eq_getElem _ _ hi]

lemma build_pfm_nil (A kernel_size : ℕ) :
    build_pfm [] A kernel_size = zeroPFM A kernel_size := by
  simp [build_pfm, zeroPFM]

/-! ### Scanner inversion and tie-break -/

lemma select_top_positions_ok_inv {arr : NDArray} {n : ℤ}
    {sels : List (List Candidate)}
    (h : select_top_positions arr n = .ok sels) :
    sels = (List.range (arr.shape.getD 1 0)).map (fun f =>
      selectTopForFilter (arr.shape.getD 0 0) (arr.shape.getD 2 0)
        (fun s p => arr.at3 (arr.shape.getD 1 0) (arr.shape.getD 2 0) s f p)
        n.toNat) := by
  unfold select_top_positions at h
  by_cases h3 : arr.shape.length ≠ 3
  · rw [if_pos h3] at h
    exact Except.noConfusion h
  · rw [if_neg h3] at h
    by_cases hn : n ≤ 0
    · rw [if_pos hn] at h
      exact Except.noConfusion h
    · rw [if_neg hn] at h
      injection h with h
      exact h.symm

lemma selectTop_tiebreak (S P : ℕ) (v : ℕ → ℕ → ℚ) (n : ℕ) :
    List.Pairwise (fun a b : Candidate => a.val = b.val →
      a.seq < b.seq ∨ (a.seq = b.seq ∧ a.pos < b.pos))
      (selectTopForFilter S P v n) := by
  have h3 := List.Pairwise.and (selectTop_sorted S P v n)
    (selectTop_pairwise_ne S P v n)
  apply h3.imp
  intro a b hab heq
  obtain ⟨hle, hne⟩ := hab
  rcases hle with h | ⟨e, h⟩
  · rw [heq] at h
    exact absurd h (lt_irrefl _)
  · rcases h with hs | ⟨es, hp⟩
    · exact Or.inl hs
    · rcases Nat.lt_or_ge a.pos b.pos with hp' | hp'
      · exact Or.inr ⟨es, hp'⟩
      · have hpe : a.pos = b.pos := le_antisymm hp hp'
        exact absurd (by rw [es, hpe]) hne

/-! ### Claim theorems -/

/-- C1: for every (S, F, P)-shaped activation tensor (rational entries model
the all-finite values) and every positive num_seqlets ≤ S·P,
`select_top_positions` succeeds and returns, for each filter, a candidate
list of length exactly min(num_seqlets, S·P), sorted descending by
activation value, with no (sequence, position) pair repeated, and every
returned candidate's value at least every non-returned candidate's value
for that filter. -/
theorem C1_scanner_topk (arr : NDArray) (S F P n : ℕ)
    (hshape : arr.shape = [S, F, P]) (hn : 0 < n) (_hnSP : n ≤ S * P) :
    ∃ sels, select_top_positions arr (n : ℤ) = .ok sels ∧
      sels.length = F ∧
      ∀ f, f < F →
        (sels.getD f []).length = min n (S * P) ∧
        List.Pairwise (fun a b : Candidate => b.val ≤ a.val) (sels.getD f []) ∧
        List.Pairwise (fun a b : Candidate =>
          (a.seq, a.pos) ≠ (b.seq, b.pos)) (sels.getD f []) ∧
        ∀ c ∈ candidatesOf S P (fun s p => arr.at3 F P s f p),
          c ∉ sels.getD f [] → ∀ r ∈ sels.getD f [], c.val ≤ r.val := by
  have hok := select_top_positions_eq_ok arr S F P (n : ℤ) hshape
    (by exact_mod_cast hn)
  refine ⟨_, hok, by simp, ?_⟩
  intro f hf
  rw [getD_map_range _ _ hf]
  have htn : ((n : ℤ)).toNat = n := by simp
  rw [htn]
  refine ⟨selectTop_length S P _ n, ?_, selectTop_pairwise_ne S P _ n,
    selectTop_dominates S P _ n⟩
  exact (selectTop_sorted S P _ n).imp (fun h => candLE_val h)

/-- Witness for C1 at the concrete input arr = ⟨[1,1,2],[3,5]⟩, n = 1. -/
theorem C1_scanner_topk_wit :
    ∃ sels,
      select_top_positions ⟨[1, 1, 2], [3, 5]⟩ ((1 : ℕ) : ℤ) = .ok sels ∧
      sels.length = 1 ∧
      ∀ f, f < 1 →
        (sels.getD f []).length = min 1 (1 * 2) ∧
        List.Pairwise (fun a b : Candidate => b.val ≤ a.val) (sels.getD f []) ∧
        List.Pairwise (fun a b : Candidate =>
          (a.seq, a.pos) ≠ (b.seq, b.pos)) (sels.getD f []) ∧
        ∀ c ∈ candidatesOf 1 2
            (fun s p => NDArray.at3 ⟨[1, 1, 2], [3, 5]⟩ 1 2 s f p),
          c ∉ sels.getD f [] → ∀ r ∈ sels.getD f [], c.val ≤ r.val :=
  C1_scanner_topk ⟨[1, 1, 2], [3, 5]⟩ 1 1 2 1 rfl (by decide) (by decide)

/-- C2: for a filter whose seqlet list consists of N one-hot (A, kernel_size)
windows, every position of the PFM built by the PFMBuilder has alphabet
counts summing to exactly N. -/
theorem C2_pfm_count_invariant (seqlets : List (List (List ℚ)))
    (A kernel_size : ℕ)
    (h : ∀ w ∈ seqlets, oneHotWindow A kernel_size w) :
    ∀ j, j < kernel_size →
      ((build_pfm seqlets A kernel_size).getD j []).sum =
        (seqlets.length : ℚ) := by
  intro j hj
  unfold build_pfm
  rw [getD_map_range _ _ hj, sum_map_swap]
  have hone : ∀ w ∈ seqlets,
      ((List.range A).map (fun a => (w.getD a []).getD j 0)).sum = 1 :=
    fun w hw => (h w hw).2.2.2 j hj
  rw [List.map_congr_left hone]
  simp

/-- Witness for C2 at the concrete one-hot input [[[1]]] with A = 1, k = 1,
position j = 0. -/
theorem C2_pfm_count_invariant_wit :
    ((build_pfm [[[(1 : ℚ)]]] 1 1).getD 0 []).sum =
      (([[[(1 : ℚ)]]] : List (List (List ℚ))).length : ℚ) :=
  C2_pfm_count_invariant [[[(1 : ℚ)]]] 1 1 (by
    intro w hw
    rw [List.mem_singleton] at hw
    subst hw
    refine ⟨rfl, ?_, ?_, ?_⟩
    · intro row hrow
      rw [List.mem_singleton] at hrow
      subst hrow
      rfl
    · intro a ha j hj
      rw [Nat.lt_one_iff] at ha hj
      subst ha; subst hj
      right; rfl
    · intro j hj
      rw [Nat.lt_one_iff] at hj
      subst hj
      norm_num [List.range_succ]) 0 (by decide)

/-- C6: the scanner fails with InvalidShapeError on every activations input
that is not 3-dimensional, and fails with InvalidArgumentError whenever
num_seqlets ≤ 0 (on a well-shaped input, shape being validated first); in
both cases the result is the error itself — no retry, and no partial result
since an `Except.error` carries no output. -/
theorem C6_scanner_errors (arr : NDArray) (n : ℤ) :
    (arr.shape.length ≠ 3 →
      select_top_positions arr n = .error .InvalidShapeError) ∧
    (arr.shape.length = 3 → n ≤ 0 →
      select_top_positions arr n = .error .InvalidArgumentError) := by
  constructor
  · intro h3
    unfold select_top_positions
    rw [if_pos h3]
  · intro h3 hn
    unfold select_top_positions
    rw [if_neg (not_not_intro h3), if_pos hn]

/-- Witness for C6: a 2-dimensional input and a num_seqlets = 0 input. -/
theorem C6_scanner_errors_wit :
    select_top_positions ⟨[2, 2], [0, 0, 0, 0]⟩ 1 =
      .error .InvalidShapeError ∧
    select_top_positions ⟨[1, 1, 1], [0]⟩ 0 =
      .error .InvalidArgumentError :=
  ⟨(C6_scanner_errors ⟨[2, 2], [0, 0, 0, 0]⟩ 1).1 (by decide),
   (C6_scanner_errors ⟨[1, 1, 1], [0]⟩ 0).2 (by decide) (by decide)⟩

/-- C7: a filter with an empty seqlet list yields, via the PFMBuilder, the
all-zero count matrix of the correct (kernel_size, A) shape; `build_pfms` is
a total function, so no error can be raised. -/
theorem C7_empty_filter (fs : List (List (List (List ℚ))))
    (A kernel_size f : ℕ) (hf : f < fs.length) (hempty : fs.getD f [] = []) :
    (build_pfms fs A kernel_size).getD f [] = zeroPFM A kernel_size ∧
    (zeroPFM A kernel_size).length = kernel_size ∧
    ∀ row ∈ zeroPFM A kernel_size, row.length = A ∧ ∀ x ∈ row, x = 0 := by
  refine ⟨?_, by simp [zeroPFM], ?_⟩
  · unfold build_pfms
    rw [getD_map _ fs [] [] hf, hempty, build_pfm_nil]
  · intro row hrow
    rcases List.mem_map.mp hrow with ⟨_, _, rfl⟩
    refine ⟨by simp, ?_⟩
    intro x hx
    rcases List.mem_map.mp hx with ⟨_, _, rfl⟩
    rfl

/-- Witness for C7 at the concrete input of one filter with no seqlets. -/
theorem C7_empty_filter_wit :
    (build_pfms [[]] 1 1).getD 0 [] = zeroPFM 1 1 ∧
    (zeroPFM 1 1).length = 1 ∧
    ∀ row ∈ zeroPFM 1 1, row.length = 1 ∧ ∀ x ∈ row, x = 0 :=
  C7_empty_filter [[]] 1 1 0 (by decide) rfl

/-- C3: when every selected window lies inside [0, L), `extract_seqlets`
returns, per filter and in the order of the input selection, exactly the
(A, kernel_size) window sliced from the one-hot batch at
[pos + padding, pos + padding + kernel_size); entry (a, j) of each window is
`sequences[s, a, pos + padding + j]`. -/
theorem C3_extractor_slices (selections : List (List Candidate))
    (seqs : ℕ → ℕ → ℕ → ℚ) (A L kernel_size padding : ℕ)
    (hin : ∀ fsel ∈ selections, ∀ c ∈ fsel,
      c.pos + padding + kernel_size ≤ L) :
    extract_seqlets selections seqs A L kernel_size padding =
      .ok (selections.map (fun fsel => fsel.map (fun c =>
        sliceWindow seqs A kernel_size c.seq (c.pos + padding)))) ∧
    (∀ s start a j, a < A → j < kernel_size →
      ((sliceWindow seqs A kernel_size s start).getD a []).getD j 0 =
        seqs s a (start + j)) ∧
    ∀ s start, (sliceWindow seqs A kernel_size s start).length = A ∧
      ∀ row ∈ sliceWindow seqs A kernel_size s start,
        row.length = kernel_size := by
  refine ⟨extract_seqlets_eq_ok _ _ _ _ _ _ hin, ?_, ?_⟩
  · intro s start a j ha hj
    exact sliceWindow_entry seqs A kernel_size s start ha hj
  · intro s start
    exact ⟨sliceWindow_length seqs A kernel_size s start,
      sliceWindow_row_length seqs A kernel_size s start⟩

/-- Witness for C3 at a concrete in-bounds selection. -/
theorem C3_extractor_slices_wit :
    extract_seqlets [[⟨0, 0, (1 : ℚ)⟩]] (fun _ _ _ => 0) 1 1 1 0 =
      .ok (([[⟨0, 0, (1 : ℚ)⟩]] : List (List Candidate)).map
        (fun fsel => fsel.map (fun c =>
          sliceWindow (fun _ _ _ => 0) 1 1 c.seq (c.pos + 0)))) ∧
    (∀ s start a j, a < 1 → j < 1 →
      ((sliceWindow (fun _ _ _ => (0 : ℚ)) 1 1 s start).getD a []).getD j 0 =
        (fun _ _ _ => (0 : ℚ)) s a (start + j)) ∧
    ∀ s start,
      (sliceWindow (fun _ _ _ => (0 : ℚ)) 1 1 s start).length = 1 ∧
      ∀ row ∈ sliceWindow (fun _ _ _ => (0 : ℚ)) 1 1 s start,
        row.length = 1 :=
  C3_extractor_slices [[⟨0, 0, (1 : ℚ)⟩]] (fun _ _ _ => 0) 1 1 1 0
    (by decide)

/-- C4: `extract_seqlets` fails with WindowOutOfBoundsError exactly when some
selected window leaves [0, L); an error result carries no output at all (no
clipped or truncated windows), and conversely an ok result can only arise
when every window lies inside [0, L). -/
theorem C4_extractor_bounds (selections : List (List Candidate))
    (seqs : ℕ → ℕ → ℕ → ℚ) (A L kernel_size padding : ℕ) :
    (extract_seqlets selections seqs A L kernel_size padding =
        .error .WindowOutOfBoundsError ↔
      ∃ fsel ∈ selections, ∃ c ∈ fsel,
        ¬(c.pos + padding + kernel_size ≤ L)) ∧
    ∀ out, extract_seqlets selections seqs A L kernel_size padding =
        .ok out →
      ∀ fsel ∈ selections, ∀ c ∈ fsel,
        c.pos + padding + kernel_size ≤ L := by
  constructor
  · constructor
    · intro herr
      by_contra hno
      push_neg at hno
      rw [extract_seqlets_eq_ok selections seqs A L kernel_size padding hno]
        at herr
      exact Except.noConfusion herr
    · intro hex
      apply extract_seqlets_eq_error
      intro hall
      rcases hex with ⟨fsel, hf, c, hc, hbad⟩
      exact hbad (hall fsel hf c hc)
  · intro out hout fsel hf c hc
    by_contra hbad
    rw [extract_seqlets_eq_error selections seqs A L kernel_size padding
      (fun hall => hbad (hall fsel hf c hc))] at hout
    exact Except.noConfusion hout

/-- C5: the pipeline is a pure function, so two invocations on identical
inputs yield identical results; and in any selection the scanner returns,
ties in activation value are resolved toward the lower sequence index, then
the lower position index. -/
theorem C5_determinism (arr : NDArray) (num_seqlets : ℤ)
    (seqs : ℕ → ℕ → ℕ → ℚ) (A L kernel_size padding : ℕ)
    (sels : List (List Candidate))
    (hsels : select_top_positions arr num_seqlets = .ok sels) :
    run_pipeline arr num_seqlets seqs A L kernel_size padding =
      run_pipeline arr num_seqlets seqs A L kernel_size padding ∧
    ∀ fsel ∈ sels,
      List.Pairwise (fun a b : Candidate => a.val = b.val →
        a.seq < b.seq ∨ (a.seq = b.seq ∧ a.pos < b.pos)) fsel := by
  refine ⟨rfl, ?_⟩
  have hinv := select_top_positions_ok_inv hsels
  subst hinv
  intro fsel hf
  rcases List.mem_map.mp hf with ⟨f, _, rfl⟩
  exact selectTop_tiebreak _ _ _ _

/-- Witness for C5 at a concrete input. -/
theorem C5_determinism_wit :
    run_pipeline ⟨[1, 1, 2], [3, 5]⟩ 1 (fun _ _ _ => 0) 1 5 2 0 =
      run_pipeline ⟨[1, 1, 2], [3, 5]⟩ 1 (fun _ _ _ => 0) 1 5 2 0 ∧
    ∀ fsel ∈ ([[⟨0, 1, 5⟩]] : List (List Candidate)),
      List.Pairwise (fun a b : Candidate => a.val = b.val →
        a.seq < b.seq ∨ (a.seq = b.seq ∧ a.pos < b.pos)) fsel :=
  C5_determinism ⟨[1, 1, 2], [3, 5]⟩ 1 (fun _ _ _ => 0) 1 5 2 0
    [[⟨0, 1, 5⟩]] (by decide)

/-- C8: under the valid-convolution convention P = L − kernel_size + 1 with
padding 0, every selection the scanner produces extracts without error: the
WindowOutOfBoundsError branch is unreachable. -/
theorem C8_valid_convolution_safe (arr : NDArray) (S F L kernel_size : ℕ)
    (n : ℤ) (seqs : ℕ → ℕ → ℕ → ℚ) (A : ℕ) (sels : List (List Candidate))
    (hshape : arr.shape = [S, F, L - kernel_size + 1])
    (_hk : 0 < kernel_size) (hkL : kernel_size ≤ L)
    (hsels : select_top_positions arr n = .ok sels) :
    ∃ out, extract_seqlets sels seqs A L kernel_size 0 = .ok out := by
  refine ⟨_, extract_seqlets_eq_ok sels seqs A L kernel_size 0 ?_⟩
  intro fsel hf c hc
  have hinv := select_top_positions_ok_inv hsels
  subst hinv
  rcases List.mem_map.mp hf with ⟨f, _, rfl⟩
  have hmem := mem_candidatesOf (mem_selectTop hc)
  rw [hshape] at hmem
  simp only [List.getD_cons_succ, List.getD_cons_zero] at hmem
  obtain ⟨-, hpos, -⟩ := hmem
  omega

/-- Witness for C8 at a concrete input with L = 2, kernel_size = 1. -/
theorem C8_valid_convolution_safe_wit :
    ∃ out, extract_seqlets [[⟨0, 1, 5⟩]] (fun _ _ _ => 0) 1 2 1 0 =
      .ok out :=
  C8_valid_convolution_safe ⟨[1, 1, 2], [3, 5]⟩ 1 1 2 1 1 (fun _ _ _ => 0) 1
    [[⟨0, 1, 5⟩]] (by decide) (by decide) (by decide) (by decide)

/-- C10: when the activation data is the image of ReLU (as in the notebook,
which applies `F.relu` to the convolution layer's output before scanning),
every entry of the tensor is nonnegative, and so is every activation value
in the scanner's selections — stronger than the spec's all-finite
precondition. -/
theorem C10_relu_nonneg (arr : NDArray) (raw : List ℚ) (n : ℤ)
    (sels : List (List Candidate))
    (hdata : arr.data = raw.map relu)
    (hsels : select_top_positions arr n = .ok sels) :
    (∀ x ∈ arr.data, 0 ≤ x) ∧
    ∀ fsel ∈ sels, ∀ c ∈ fsel, 0 ≤ c.val := by
  have hnn : ∀ x ∈ arr.data, 0 ≤ x := by
    intro x hx
    rw [hdata] at hx
    rcases List.mem_map.mp hx with ⟨y, _, rfl⟩
    exact le_max_right y 0
  refine ⟨hnn, ?_⟩
  have hinv := select_top_positions_ok_inv hsels
  subst hinv
  intro fsel hf c hc
  rcases List.mem_map.mp hf with ⟨f, _, rfl⟩
  have hmem := mem_candidatesOf (mem_selectTop hc)
  rw [hmem.2.2]
  unfold NDArray.at3
  by_cases hidx :
      (c.seq * arr.shape.getD 1 0 + f) * arr.shape.getD 2 0 + c.pos <
        arr.data.length
  · rw [List.getD_eq_getElem _ _ hidx]
    exact hnn _ (List.getElem_mem hidx)
  · rw [List.getD_eq_default _ _ (Nat.le_of_not_lt hidx)]

/-- Witness for C10 at a concrete ReLU-produced input. -/
theorem C10_relu_nonneg_wit :
    (∀ x ∈ (NDArray.mk [1, 1, 1] (List.map relu [-5])).data, 0 ≤ x) ∧
    ∀ fsel ∈ ([[⟨0, 0, 0⟩]] : List (List Candidate)), ∀ c ∈ fsel,
      0 ≤ c.val :=
  C10_relu_nonneg ⟨[1, 1, 1], List.map relu [-5]⟩ [-5] 1 [[⟨0, 0, 0⟩]]
    rfl (by decide)

/-- C9: the spec's example scenario: on activations (2,1,3) =
[[[0.1,0.9,0.2]],[[0.5,0.05,0.8]]] with num_seqlets = 2 the scanner selects
exactly (seq 0, pos 1, 0.9) then (seq 1, pos 2, 0.8); with the one-hot
length-5 example sequences, kernel_size 2 and padding 0, the extractor
slices sequence 0 at [1,3) and sequence 1 at [2,4), and both positions of
the resulting PFM sum to 2. -/
theorem C9_example_scenario :
    select_top_positions exActs 2 =
      .ok [[⟨0, 1, 9/10⟩, ⟨1, 2, 8/10⟩]] ∧
    extract_seqlets [[⟨0, 1, 9/10⟩, ⟨1, 2, 8/10⟩]] exSeqs 4 5 2 0 =
      .ok [[sliceWindow exSeqs 4 2 0 1, sliceWindow exSeqs 4 2 1 2]] ∧
    ∀ j, j < 2 →
      ((build_pfm [sliceWindow exSeqs 4 2 0 1, sliceWindow exSeqs 4 2 1 2]
          4 2).getD j []).sum = 2 := by
  refine ⟨?_, ?_, ?_⟩
  · norm_num [select_top_positions, exActs, selectTopForFilter, candidatesOf,
      NDArray.at3, List.insertionSort, List.orderedInsert, candLE,
      List.range_succ, Int.toNat_ofNat, List.take_succ_cons, List.take_zero]
    rfl
  · rfl
  · intro j hj
    interval_cases j <;>
      norm_num [build_pfm, sliceWindow, exSeqs, exBase, List.range_succ]
